import Mathlib

/-!
Verification of the dictionary cache/refresh subsystem (package `dictionary`).

The Go source is shallowly embedded: pure functions become Lean functions,
the mutable cache map becomes explicit state passing over an association
list, `time.Now()` becomes an explicit `now : Nat` parameter (seconds),
channels and the rate limiter become explicit event parameters, and
`encoding/json` decoding into the two Go target shapes is modelled by
structural decoders over a JSON value type following Go's `json.Unmarshal`
semantics (unknown object fields ignored, case-insensitive key match,
`null` leaves a field at its previous value, type mismatch is an error).
-/

namespace DictCache

/-- One part-of-speech/definition pair attached to a word
(source: `type Meaning`). -/
structure Meaning where
  partOfSpeech : String
  definition : String
deriving DecidableEq, Repr

/-- Cached outcome of one word's lookup attempt (source: `type entry`).
`expiresAt` is a timestamp in seconds. -/
structure entry where
  word : String
  meanings : List Meaning
  valid : Bool
  found : Bool
  expiresAt : Nat
deriving DecidableEq, Repr

/-- JSON values, used to model the bodies `json.Unmarshal` is run on. -/
inductive Json where
  | null : Json
  | bool : Bool → Json
  | num : Int → Json
  | str : String → Json
  | arr : List Json → Json
  | obj : List (String × Json) → Json

/-- Target of the not-found unmarshal (source: `type wordNotFound`). -/
structure wordNotFound where
  title : String
deriving DecidableEq, Repr

/-- Innermost anonymous struct of `wordData`: `{Definition string}`. -/
structure defObj where
  definition : String
deriving DecidableEq, Repr

/-- Middle anonymous struct of `wordData`:
`{PartOfSpeech string; Definitions []…}`. -/
structure meaningObj where
  partOfSpeech : String
  definitions : List defObj
deriving DecidableEq, Repr

/-- Target of the found-shape unmarshal (source: `type wordData`). -/
structure wordData where
  word : String
  meanings : List meaningObj
deriving DecidableEq, Repr

/-- Embedding of Go's `strings.ToLower` restricted to per-character
lowercasing, written structurally so the kernel can evaluate it. -/
def toLowerStr (s : String) : String :=
  String.mk (s.toList.map Char.toLower)

/-- Fold of `json.Unmarshal` object fields into `wordNotFound`: a field
whose key case-insensitively matches `title` must be a string (or `null`,
which leaves the previous value); all other fields are ignored. -/
def notFoundFromFields (acc : wordNotFound) :
    List (String × Json) → Option wordNotFound
  | [] => some acc
  | (k, v) :: rest =>
    if toLowerStr k = "title" then
      match v with
      | Json.str s => notFoundFromFields ⟨s⟩ rest
      | Json.null => notFoundFromFields acc rest
      | _ => none
    else notFoundFromFields acc rest

/-- Go's `json.Unmarshal(body, &notFound)`: succeeds exactly on JSON
`null` and on objects whose `title` field (if present) is a string. -/
def decodeNotFound : Json → Option wordNotFound
  | Json.null => some ⟨""⟩
  | Json.obj fs => notFoundFromFields ⟨""⟩ fs
  | _ => none

/-- Field fold for the innermost `{definition}` object. -/
def defObjFromFields (acc : defObj) : List (String × Json) → Option defObj
  | [] => some acc
  | (k, v) :: rest =>
    if toLowerStr k = "definition" then
      match v with
      | Json.str s => defObjFromFields ⟨s⟩ rest
      | Json.null => defObjFromFields acc rest
      | _ => none
    else defObjFromFields acc rest

/-- Unmarshal one element of a `definitions` array. -/
def decodeDefObj : Json → Option defObj
  | Json.null => some ⟨""⟩
  | Json.obj fs => defObjFromFields ⟨""⟩ fs
  | _ => none

/-- Unmarshal a JSON array into a Go slice, element by element. -/
def decodeListWith (f : Json → Option α) : Json → Option (List α)
  | Json.arr xs => xs.mapM f
  | _ => none

/-- Field fold for a `meanings` array element. -/
def meaningObjFromFields (acc : meaningObj) :
    List (String × Json) → Option meaningObj
  | [] => some acc
  | (k, v) :: rest =>
    if toLowerStr k = "partofspeech" then
      match v with
      | Json.str s => meaningObjFromFields { acc with partOfSpeech := s } rest
      | Json.null => meaningObjFromFields acc rest
      | _ => none
    else if toLowerStr k = "definitions" then
      match v with
      | Json.null => meaningObjFromFields acc rest
      | _ =>
        match decodeListWith decodeDefObj v with
        | some ds => meaningObjFromFields { acc with definitions := ds } rest
        | none => none
    else meaningObjFromFields acc rest

/-- Unmarshal one element of a `meanings` array. -/
def decodeMeaningObj : Json → Option meaningObj
  | Json.null => some ⟨"", []⟩
  | Json.obj fs => meaningObjFromFields ⟨"", []⟩ fs
  | _ => none

/-- Field fold for one word-sense group object. -/
def wordDataFromFields (acc : wordData) :
    List (String × Json) → Option wordData
  | [] => some acc
  | (k, v) :: rest =>
    if toLowerStr k = "word" then
      match v with
      | Json.str s => wordDataFromFields { acc with word := s } rest
      | Json.null => wordDataFromFields acc rest
      | _ => none
    else if toLowerStr k = "meanings" then
      match v with
      | Json.null => wordDataFromFields acc rest
      | _ =>
        match decodeListWith decodeMeaningObj v with
        | some ms => wordDataFromFields { acc with meanings := ms } rest
        | none => none
    else wordDataFromFields acc rest

/-- Unmarshal one word-sense group. -/
def decodeWordData : Json → Option wordData
  | Json.null => some ⟨"", []⟩
  | Json.obj fs => wordDataFromFields ⟨"", []⟩ fs
  | _ => none

/-- Go's `json.Unmarshal(body, &apiData)` with `apiData : []wordData`:
succeeds exactly on `null` and on arrays of word-sense groups. -/
def decodeApiData : Json → Option (List wordData)
  | Json.null => some []
  | j => decodeListWith decodeWordData j

/-- The error values of the package: `errQueued`, `errNotFound`, and the
generic fetch errors (transport, parse, bad status) collapsed into one
constructor since the code only compares errors against the two
sentinels. A Go `nil` error is `Option.none` around this type. -/
inductive DictErr where
  | queued : DictErr
  | notFound : DictErr
  | fetchFailed : DictErr
deriving DecidableEq, Repr

/-- Modelled from the spec: Go's `time.Time.AddDate` (standard library,
not part of this repository) is modelled as adding nominal average
calendar durations in seconds — the policy-level content (a month-scale
and a year-scale TTL, both far larger than the failure TTL) is what the
spec constrains. -/
def addDate (t : Nat) (y m d : Nat) : Nat :=
  t + y * 31556952 + m * 2629746 + d * 86400

/-- Outcome of the HTTP exchange in `fetchAPI`, as seen by the parsing
code: a transport-level failure (request construction, `client.Do`, or
body read error), or a response with a status code and a body. A body
that is not valid JSON text is `Option.none`. -/
inductive HttpResult where
  | transportError : HttpResult
  | response : Nat → Option Json → HttpResult

/-- Embedding of `strings.Trim(s, " ")`: remove leading and trailing
space characters (only U+0020, exactly as the Go call's cutset). -/
def trimSpaces (s : String) : String :=
  String.mk (((s.toList.dropWhile (· = ' ')).reverse.dropWhile
    (· = ' ')).reverse)

/-- The failure placeholder `bad` built at the top of `fetchAPI`:
invalid, expiring ten minutes after the fetch time. -/
def badEntry (w : String) (now : Nat) : entry :=
  { word := w, meanings := [], valid := false, found := false,
    expiresAt := now + 10 * 60 }

/-- Embedding of `(*Dictionary).fetchAPI` as a function of the word, the
current time and the HTTP outcome. Mirrors the source order: transport
failure, then the 500/429 status check, then the not-found unmarshal,
then the found-shape unmarshal keeping only the first word-sense group,
skipping part-of-speech entries with zero definitions, and keeping the
first definition of each retained entry trimmed of spaces. -/
def fetchAPI (w : String) (now : Nat) (r : HttpResult) :
    entry × Option DictErr :=
  let bad : entry := badEntry w now
  match r with
  | HttpResult.transportError => (bad, some DictErr.fetchFailed)
  | HttpResult.response status body =>
    if status = 500 ∨ status = 429 then
      (bad, some DictErr.fetchFailed)
    else
      match body with
      | none => (bad, some DictErr.fetchFailed)
      | some j =>
        match decodeNotFound j with
        | some _ =>
          ({ word := w, meanings := [], valid := true, found := false,
             expiresAt := addDate now 0 1 0 }, some DictErr.notFound)
        | none =>
          match decodeApiData j with
          | none => (bad, some DictErr.fetchFailed)
          | some apiData =>
            let meanings : List Meaning :=
              match apiData with
              | [] => []
              | first :: _ =>
                first.meanings.filterMap (fun p =>
                  match p.definitions with
                  | [] => none
                  | d0 :: _ =>
                    some { partOfSpeech := p.partOfSpeech,
                           definition := trimSpaces d0.definition })
            ({ word := w, meanings := meanings, valid := true,
               found := true, expiresAt := addDate now 1 0 0 }, none)

/-- A body fails both unmarshals: invalid JSON text, or a JSON value
accepted by neither the not-found shape nor the found shape. -/
def failsBothParses : Option Json → Bool
  | none => true
  | some j => (decodeNotFound j).isNone && (decodeApiData j).isNone

/-- The cache map `d.data`, modelled as an association list whose `set`
overwrites in place, matching Go map semantics (never two entries for the
same key). -/
abbrev CacheMap := List (String × entry)

/-- Map read `d.data[w]`. -/
def mapGet : CacheMap → String → Option entry
  | [], _ => none
  | (k, v) :: rest, w => if k = w then some v else mapGet rest w

/-- Map write `d.data[w] = e`: overwrite the key if present, else add. -/
def mapSet : CacheMap → String → entry → CacheMap
  | [], w, e => [(w, e)]
  | (k, v) :: rest, w, e =>
    if k = w then (w, e) :: rest else (k, v) :: mapSet rest w e

/-- One rendered TXT record for a meaning
(`"%s 1 TXT \"%s:\" \"%s\""`). -/
def meaningLine (w p d : String) : String :=
  s!"{w} 1 TXT \"{p}:\" \"{d}\""

/-- The single not-found record produced by `get`. -/
def notFoundLine (w : String) : String :=
  s!"{w} 1 TXT \"word definition was not found in our dictionary, please try other sources.\""

/-- The single unavailable record produced by `get`. -/
def unavailableLine (w : String) : String :=
  s!"{w} 1 TXT \"dictionary unavailable, try again later.\""

/-- The single pending record produced by `Query` for a queued word. -/
def pendingLine (w : String) : String :=
  s!"{w} 1 TXT \"word definition is being fetched. Try again in a few seconds.\""

/-- The output-building tail of `get` (lines 171-183 of the source):
one line per meaning when valid and found, one not-found line when valid
and not found, one unavailable line when not valid. -/
def renderEntry (w : String) (data : entry) : List String :=
  if data.valid then
    if data.found then
      data.meanings.map (fun m => meaningLine w m.partOfSpeech m.definition)
    else [notFoundLine w]
  else [unavailableLine w]

/-- Embedding of `(*Dictionary).get`. Returns the Go result pair as an
`Except`, the cache map after the call, and the list of enqueue attempts
made on the fetch queue (the non-blocking `select` send, which may be
dropped by the channel; the attempt itself is what is recorded). -/
def get (cache : CacheMap) (w : String) (now : Nat) :
    Except DictErr (List String) × CacheMap × List String :=
  match mapGet cache w with
  | none => (Except.error DictErr.queued, cache, [w])
  | some data =>
    if data.expiresAt < now then
      let data' : entry := { data with expiresAt := now + 60 }
      (Except.ok (renderEntry w data'), mapSet cache w data', [w])
    else
      (Except.ok (renderEntry w data), cache, [])

/-- Result of one `Query` call: the returned lines (`none` when an error
is returned), the returned error, the cache map afterwards, and the
enqueue attempts made. -/
structure QueryOut where
  lines : Option (List String)
  err : Option DictErr
  cache : CacheMap
  enqueued : List String
deriving DecidableEq, Repr

/-- Embedding of `(*Dictionary).Query`: lower-case the word, call `get`,
and translate the `errQueued` sentinel into the friendly pending line. -/
def Query (cache : CacheMap) (q : String) (now : Nat) : QueryOut :=
  let w := toLowerStr q
  match get cache w now with
  | (Except.error e, cache', att) =>
    if e = DictErr.queued then
      { lines := some [pendingLine w], err := none,
        cache := cache', enqueued := att }
    else
      { lines := none, err := some e, cache := cache', enqueued := att }
  | (Except.ok out, cache', att) =>
    { lines := some out, err := none, cache := cache', enqueued := att }

/-- Source constant `apiRateLimit` (tokens per second). -/
def apiRateLimit : Nat := 10

/-- Source constant `apiRateLimitBurstSize` (token-bucket burst). -/
def apiRateLimitBurstSize : Nat := 1

/-- One request as seen by the dispatcher loop: the dequeued word, the
rate limiter's `Allow()` verdict for it, and the HTTP outcome the remote
call would see if it were made. -/
structure FetchReq where
  word : String
  allow : Bool
  http : HttpResult

/-- One iteration of the `runFetchQueue` loop body on a dequeued word.
Returns the cache afterwards, whether the remote client was called, and
whether an error line was logged (`err != nil && err != errNotFound`).
When the limiter denies the request, the loop logs a rate-limit warning
and `continue`s without touching the cache; when it allows, the fetch
result — success or failure placeholder — is written unconditionally. -/
def runFetchStep (cache : CacheMap) (now : Nat) (r : FetchReq) :
    CacheMap × Bool × Bool :=
  if r.allow then
    let (res, err) := fetchAPI r.word now r.http
    let logged : Bool :=
      match err with
      | none => false
      | some DictErr.notFound => false
      | some _ => true
    (mapSet cache r.word res, true, logged)
  else
    (cache, false, false)

/-- The dispatcher draining a finite burst of requests one at a time. -/
def runFetchQueue (cache : CacheMap) (now : Nat) :
    List FetchReq → CacheMap
  | [] => cache
  | r :: rest => runFetchQueue (runFetchStep cache now r).1 now rest

/-- The two forms of the reader/writer lock `d.mut`. -/
inductive LockMode where
  | shared : LockMode
  | exclusive : LockMode
deriving DecidableEq, Repr

/-- Lock acquisitions of `get`, in source order: the map read under
`RLock` (lines 140-142), and — only on the stale path — the grace-window
write-back under `Lock` (lines 161-163). -/
def getLocks (stale : Bool) : List LockMode :=
  LockMode.shared :: (if stale then [LockMode.exclusive] else [])

/-- Lock acquisitions of one allowed `runFetchQueue` iteration: the
result write under `Lock` (lines 108-110); a denied iteration takes no
lock. -/
def runFetchStepLocks (allowed : Bool) : List LockMode :=
  if allowed then [LockMode.exclusive] else []

/-- Lock acquisitions of `Dump`: the map is encoded under `RLock`
(lines 276-277). -/
def dumpLocks : List LockMode := [LockMode.shared]

/-- Lock acquisitions of `Load` as written in the source: the decode
into `d.data` happens under `RLock` (lines 290-291), the shared form. -/
def loadLocks : List LockMode := [LockMode.shared]

/-- Modelled from the spec: `encoding/gob` is standard-library code, not
part of this repository; §6 treats the blob as opaque and requires only
round-trip fidelity. The codec is modelled as an explicit length-prefixed
serializer over naturals. Encoder for one natural. -/
def encNat (n : Nat) : List Nat := [n]

/-- Encoder for one boolean. -/
def encBool (b : Bool) : List Nat := [if b then 1 else 0]

/-- Encoder for a string: length prefix, then the character scalars. -/
def encString (s : String) : List Nat :=
  s.toList.length :: s.toList.map Char.toNat

/-- Encoder for a list: length prefix, then the encoded elements. -/
def encListWith (f : α → List Nat) (xs : List α) : List Nat :=
  xs.length :: (xs.map f).flatten

/-- Encoder for a `Meaning`. -/
def encMeaning (m : Meaning) : List Nat :=
  encString m.partOfSpeech ++ encString m.definition

/-- Encoder for an `entry`, all five fields in order. -/
def encEntry (e : entry) : List Nat :=
  encString e.word ++ encListWith encMeaning e.meanings ++
    encBool e.valid ++ encBool e.found ++ encNat e.expiresAt

/-- Encoder for one key/value pair of the cache map. -/
def encPair (p : String × entry) : List Nat :=
  encString p.1 ++ encEntry p.2

/-- Embedding of `(*Dictionary).Dump`: serialize the entire cache map. -/
def Dump (cache : CacheMap) : List Nat :=
  encListWith encPair cache

/-- Decoder for one natural; returns the value and the rest of the blob. -/
def decNat : List Nat → Option (Nat × List Nat)
  | [] => none
  | n :: rest => some (n, rest)

/-- Decoder for one boolean. -/
def decBool : List Nat → Option (Bool × List Nat)
  | 0 :: rest => some (false, rest)
  | 1 :: rest => some (true, rest)
  | _ => none

/-- Decoder for a run of `n` characters. -/
def decChars : Nat → List Nat → Option (List Char × List Nat)
  | 0, l => some ([], l)
  | _ + 1, [] => none
  | n + 1, c :: l =>
    match decChars n l with
    | some (cs, l') => some (Char.ofNat c :: cs, l')
    | none => none

/-- Decoder for a string. -/
def decString (l : List Nat) : Option (String × List Nat) :=
  match decNat l with
  | some (n, l₁) =>
    match decChars n l₁ with
    | some (cs, l₂) => some (String.mk cs, l₂)
    | none => none
  | none => none

/-- Decoder for `n` successive elements. -/
def decListWithAux (f : List Nat → Option (α × List Nat)) :
    Nat → List Nat → Option (List α × List Nat)
  | 0, l => some ([], l)
  | n + 1, l =>
    match f l with
    | some (x, l₁) =>
      match decListWithAux f n l₁ with
      | some (xs, l₂) => some (x :: xs, l₂)
      | none => none
    | none => none

/-- Decoder for a length-prefixed list. -/
def decListWith (f : List Nat → Option (α × List Nat))
    (l : List Nat) : Option (List α × List Nat) :=
  match decNat l with
  | some (n, l₁) => decListWithAux f n l₁
  | none => none

/-- Decoder for a `Meaning`. -/
def decMeaning (l : List Nat) : Option (Meaning × List Nat) :=
  match decString l with
  | some (p, l₁) =>
    match decString l₁ with
    | some (d, l₂) => some (⟨p, d⟩, l₂)
    | none => none
  | none => none

/-- Decoder for an `entry`. -/
def decEntry (l : List Nat) : Option (entry × List Nat) :=
  match decString l with
  | none => none
  | some (w, l₁) =>
    match decListWith decMeaning l₁ with
    | none => none
    | some (ms, l₂) =>
      match decBool l₂ with
      | none => none
      | some (v, l₃) =>
        match decBool l₃ with
        | none => none
        | some (fd, l₄) =>
          match decNat l₄ with
          | none => none
          | some (x, l₅) => some (⟨w, ms, v, fd, x⟩, l₅)

/-- Decoder for one key/value pair. -/
def decPair (l : List Nat) : Option ((String × entry) × List Nat) :=
  match decString l with
  | some (w, l₁) =>
    match decEntry l₁ with
    | some (e, l₂) => some ((w, e), l₂)
    | none => none
  | none => none

/-- Embedding of `(*Dictionary).Load` applied to a fresh store: decode a
snapshot blob back into a cache map, `none` on a decode error. -/
def Load (b : List Nat) : Option CacheMap :=
  match decListWith decPair b with
  | some (m, _) => some m
  | none => none

/-- A found-shape response body in which two part-of-speech entries of
the first word-sense group carry the same part-of-speech string. -/
def dupNounBody : Json :=
  Json.arr [Json.obj [("word", Json.str "run"),
    ("meanings", Json.arr
      [Json.obj [("partOfSpeech", Json.str "noun"),
        ("definitions", Json.arr
          [Json.obj [("definition", Json.str " a sprint ")]])],
       Json.obj [("partOfSpeech", Json.str "noun"),
        ("definitions", Json.arr
          [Json.obj [("definition", Json.str "b")]])]])]]

/-- A found-shape response body with one two-definition noun entry and
one zero-definition verb entry, plus a second word-sense group that must
be ignored. -/
def firstGroupBody : Json :=
  Json.arr [Json.obj [("word", Json.str "run"),
    ("meanings", Json.arr
      [Json.obj [("partOfSpeech", Json.str "noun"),
        ("definitions", Json.arr
          [Json.obj [("definition", Json.str " a sprint ")],
           Json.obj [("definition", Json.str "x")]])],
       Json.obj [("partOfSpeech", Json.str "verb"),
        ("definitions", Json.arr [])]])],
   Json.obj [("word", Json.str "run"),
    ("meanings", Json.arr
      [Json.obj [("partOfSpeech", Json.str "adjective"),
        ("definitions", Json.arr
          [Json.obj [("definition", Json.str "ignored")]])]])]]

theorem decNat_enc (n : Nat) (r : List Nat) :
    decNat (encNat n ++ r) = some (n, r) := rfl

theorem decBool_enc (b : Bool) (r : List Nat) :
    decBool (encBool b ++ r) = some (b, r) := by
  cases b <;> rfl

theorem decChars_enc (cs : List Char) (r : List Nat) :
    decChars cs.length (cs.map Char.toNat ++ r) = some (cs, r) := by
  induction cs with
  | nil => rfl
  | cons c cs ih => simp [decChars, ih, Char.ofNat_toNat]

theorem decString_enc (s : String) (r : List Nat) :
    decString (encString s ++ r) = some (s, r) := by
  have h := decChars_enc s.toList r
  simp only [encString, List.cons_append, decString, decNat, h]
  rfl

theorem decListWithAux_enc {α : Type} (f : List Nat → Option (α × List Nat))
    (enc : α → List Nat) (hf : ∀ x r, f (enc x ++ r) = some (x, r)) :
    ∀ (xs : List α) (r : List Nat),
      decListWithAux f xs.length ((xs.map enc).flatten ++ r) = some (xs, r) := by
  intro xs
  induction xs with
  | nil => intro r; rfl
  | cons x xs ih =>
    intro r
    simp [decListWithAux, List.append_assoc, hf, ih]

theorem decListWith_enc {α : Type} (f : List Nat → Option (α × List Nat))
    (enc : α → List Nat) (hf : ∀ x r, f (enc x ++ r) = some (x, r))
    (xs : List α) (r : List Nat) :
    decListWith f (encListWith enc xs ++ r) = some (xs, r) := by
  simp [encListWith, decListWith, decNat, decListWithAux_enc f enc hf]

theorem decMeaning_enc (m : Meaning) (r : List Nat) :
    decMeaning (encMeaning m ++ r) = some (m, r) := by
  simp [encMeaning, decMeaning, List.append_assoc, decString_enc]

theorem decMeanings_enc (ms : List Meaning) (r : List Nat) :
    decListWith decMeaning (encListWith encMeaning ms ++ r) = some (ms, r) :=
  decListWith_enc decMeaning encMeaning decMeaning_enc ms r

theorem decEntry_enc (e : entry) (r : List Nat) :
    decEntry (encEntry e ++ r) = some (e, r) := by
  simp [encEntry, decEntry, List.append_assoc, decString_enc,
    decMeanings_enc, decBool_enc, decNat_enc]

theorem decPair_enc (p : String × entry) (r : List Nat) :
    decPair (encPair p ++ r) = some (p, r) := by
  simp [encPair, decPair, List.append_assoc, decString_enc, decEntry_enc]

theorem decPairs_enc (m : CacheMap) (r : List Nat) :
    decListWith decPair (encListWith encPair m ++ r) = some (m, r) :=
  decListWith_enc decPair encPair decPair_enc m r

theorem renderEntry_expiry (w : String) (e : entry) (x : Nat) :
    renderEntry w { e with expiresAt := x } = renderEntry w e := rfl

theorem mapGet_mapSet_self (cache : CacheMap) (w : String) (e : entry) :
    mapGet (mapSet cache w e) w = some e := by
  induction cache with
  | nil => simp [mapSet, mapGet]
  | cons p rest ih =>
    obtain ⟨k, v⟩ := p
    by_cases h : k = w <;> simp [mapSet, mapGet, h, ih]

theorem Query_hit (cache : CacheMap) (q : String) (now : Nat) (e : entry)
    (h : mapGet cache (toLowerStr q) = some e) :
    (Query cache q now).lines = some (renderEntry (toLowerStr q) e) ∧
    (Query cache q now).err = none := by
  by_cases hc : e.expiresAt < now <;>
    simp [Query, get, h, hc, renderEntry_expiry]

/-- Claim C8: for every input string and every cache state, `Query`
returns a nil error — the only error `get` can produce is the queued
sentinel, which `Query` translates into a pending-message line. -/
theorem c8_queryNeverErrors (cache : CacheMap) (q : String) (now : Nat) :
    (Query cache q now).err = none := by
  cases h : mapGet cache (toLowerStr q) with
  | none => simp [Query, get, h]
  | some e => by_cases hc : e.expiresAt < now <;> simp [Query, get, h, hc]

/-- Claim C5: a query for a word absent from the cache returns exactly
one pending-message line and no error, leaves the cache unchanged, and
performs exactly one enqueue attempt of the lower-cased word. -/
theorem c5_missingWordPending (cache : CacheMap) (q : String) (now : Nat)
    (h : mapGet cache (toLowerStr q) = none) :
    Query cache q now =
      { lines := some [pendingLine (toLowerStr q)], err := none,
        cache := cache, enqueued := [toLowerStr q] } := by
  simp [Query, get, h]

theorem c5_missingWordPending_witness :
    mapGet [] (toLowerStr "HeLLo") = none ∧
    Query [] "HeLLo" 50 =
      { lines := some [pendingLine "hello"], err := none,
        cache := [], enqueued := ["hello"] } :=
  ⟨by decide, c5_missingWordPending [] "HeLLo" 50 (by decide)⟩

/-- Claim C4: a query for a word whose cached entry is stale returns the
rendering of the previously cached entry (not a pending message) with no
error, and writes the entry back with `expiresAt` one minute after the
current time, recording one enqueue attempt. -/
theorem c4_staleServedAndExtended (cache : CacheMap) (q : String)
    (now : Nat) (e : entry)
    (hget : mapGet cache (toLowerStr q) = some e)
    (hstale : e.expiresAt < now) :
    Query cache q now =
      { lines := some (renderEntry (toLowerStr q) e), err := none,
        cache := mapSet cache (toLowerStr q) { e with expiresAt := now + 60 },
        enqueued := [toLowerStr q] } := by
  simp [Query, get, hget, hstale, renderEntry_expiry]

theorem c4_staleServedAndExtended_witness :
    Query [("cat", ⟨"cat", [⟨"noun", "feline"⟩], true, true, 10⟩)] "CAT" 50 =
      ⟨some [meaningLine "cat" "noun" "feline"], none,
        [("cat", ⟨"cat", [⟨"noun", "feline"⟩], true, true, 110⟩)], ["cat"]⟩ := by
  have h := c4_staleServedAndExtended
    [("cat", ⟨"cat", [⟨"noun", "feline"⟩], true, true, 10⟩)] "CAT" 50
    ⟨"cat", [⟨"noun", "feline"⟩], true, true, 10⟩ (by decide) (by decide)
  exact h.trans (by decide)

/-- Claim C6: `Dump` followed by `Load` of the produced blob on a fresh
store reconstructs the word-to-entry map exactly, preserving every
entry's word, meanings, valid, found and expiresAt fields. -/
theorem c6_dumpLoadRoundTrip (cache : CacheMap) :
    Load (Dump cache) = some cache := by
  have h := decPairs_enc cache []
  rw [List.append_nil] at h
  simp [Load, Dump, h]

/-- Claim C7: the dispatcher's rate limiter is configured with refill
rate 10 per second and burst 1, and a denied dequeued request is dropped
without calling the remote client and without modifying any cache entry,
after which the loop continues with the next request. -/
theorem c7_rateLimiterDenied :
    apiRateLimit = 10 ∧ apiRateLimitBurstSize = 1 ∧
    (∀ (cache : CacheMap) (now : Nat) (w : String) (http : HttpResult),
      runFetchStep cache now ⟨w, false, http⟩ = (cache, false, false)) ∧
    (∀ (cache : CacheMap) (now : Nat) (w : String) (http : HttpResult)
      (rest : List FetchReq),
      runFetchQueue cache now (⟨w, false, http⟩ :: rest) =
        runFetchQueue cache now rest) :=
  ⟨rfl, rfl, fun _ _ _ _ => rfl, fun _ _ _ _ _ => rfl⟩

/-- Claim C10: contrary to the claim, `Load` acquires the shared
(`RLock`) form of the reader/writer lock around its decode into the
cache map; the fetch-result write and grace-window extension do take the
exclusive form, and the query lookup and `Dump` take the shared form. -/
theorem c10_loadTakesSharedLock :
    loadLocks = [LockMode.shared] ∧
    LockMode.exclusive ∉ loadLocks ∧
    runFetchStepLocks true = [LockMode.exclusive] ∧
    getLocks true = [LockMode.shared, LockMode.exclusive] ∧
    getLocks false = [LockMode.shared] ∧
    dumpLocks = [LockMode.shared] := by
  refine ⟨rfl, ?_, rfl, rfl, rfl, rfl⟩
  decide

theorem fetchAPI_notFoundShape (w : String) (now st : Nat) (j : Json)
    (nf : wordNotFound) (hst : ¬(st = 500 ∨ st = 429))
    (hnf : decodeNotFound j = some nf) :
    fetchAPI w now (HttpResult.response st (some j)) =
      (⟨w, [], true, false, addDate now 0 1 0⟩, some DictErr.notFound) := by
  simp [fetchAPI, hst, hnf]

theorem notFoundFromFields_ok (fs : List (String × Json)) :
    ∀ acc : wordNotFound,
      (∀ p ∈ fs, toLowerStr p.1 = "title" →
        (∃ s, p.2 = Json.str s) ∨ p.2 = Json.null) →
      ∃ t, notFoundFromFields acc fs = some t := by
  induction fs with
  | nil => exact fun acc _ => ⟨acc, rfl⟩
  | cons p rest ih =>
    intro acc hp
    obtain ⟨k, v⟩ := p
    by_cases hk : toLowerStr k = "title"
    · rcases hp (k, v) (List.mem_cons_self _ _) hk with ⟨s, hs⟩ | hnull
      · simp only at hs
        subst hs
        simp only [notFoundFromFields, hk, if_pos]
        exact ih ⟨s⟩ (fun p hmem => hp p (List.mem_cons_of_mem _ hmem))
      · simp only at hnull
        subst hnull
        simp only [notFoundFromFields, hk, if_pos]
        exact ih acc (fun p hmem => hp p (List.mem_cons_of_mem _ hmem))
    · simp only [notFoundFromFields, hk, if_neg, ite_false]
      exact ih acc (fun p hmem => hp p (List.mem_cons_of_mem _ hmem))

/-- Claim C2: a response body that parses as the not-found shape (with a
status other than the 500/429 handled earlier) yields an entry with
valid true and found false expiring one month after the fetch time,
together with the distinguished not-found error; the dispatcher writes
that entry without logging an error, and a subsequent query for the word
returns exactly one not-found line and no error. -/
theorem c2_notFoundCachedMonth (w : String) (now st : Nat) (j : Json)
    (nf : wordNotFound) (hst : ¬(st = 500 ∨ st = 429))
    (hnf : decodeNotFound j = some nf) :
    fetchAPI w now (HttpResult.response st (some j)) =
      (⟨w, [], true, false, addDate now 0 1 0⟩, some DictErr.notFound) ∧
    (∀ cache : CacheMap,
      runFetchStep cache now ⟨w, true, HttpResult.response st (some j)⟩ =
        (mapSet cache w ⟨w, [], true, false, addDate now 0 1 0⟩,
          true, false)) ∧
    (∀ (cache : CacheMap) (q : String) (now₂ : Nat), toLowerStr q = w →
      (Query (mapSet cache w ⟨w, [], true, false, addDate now 0 1 0⟩)
          q now₂).lines = some [notFoundLine w] ∧
      (Query (mapSet cache w ⟨w, [], true, false, addDate now 0 1 0⟩)
          q now₂).err = none) := by
  have hf := fetchAPI_notFoundShape w now st j nf hst hnf
  refine ⟨hf, fun cache => by simp [runFetchStep, hf], ?_⟩
  intro cache q now₂ hq
  subst hq
  have hm := mapGet_mapSet_self cache (toLowerStr q)
    ⟨toLowerStr q, [], true, false, addDate now 0 1 0⟩
  have hqh := Query_hit _ q now₂ _ hm
  exact ⟨hqh.1, hqh.2⟩

theorem c2_notFoundCachedMonth_witness :
    fetchAPI "zzz" 100
        (HttpResult.response 404 (some (Json.obj [("title", Json.str "No Definitions Found")]))) =
      (⟨"zzz", [], true, false, addDate 100 0 1 0⟩, some DictErr.notFound) ∧
    (Query (mapSet [] "zzz" ⟨"zzz", [], true, false, addDate 100 0 1 0⟩)
        "ZzZ" 50).lines = some [notFoundLine "zzz"] := by
  have h := c2_notFoundCachedMonth "zzz" 100 404
    (Json.obj [("title", Json.str "No Definitions Found")])
    ⟨"No Definitions Found"⟩ (by decide) (by decide)
  exact ⟨h.1, (h.2.2 [] "ZzZ" 50 (by decide)).1⟩

/-- Claim C3: a transport error, a 500 or 429 status, or a body failing
both parses yields the failure placeholder (valid false, expiring ten
minutes after the fetch time) with a generic error; an allowed dispatch
writes that placeholder into the cache (and logs), and a subsequent
query for the word returns exactly one unavailable line and no error. -/
theorem c3_failurePlaceholderCached (w : String) (now : Nat)
    (r : HttpResult)
    (hr : r = HttpResult.transportError ∨
      ∃ st b, r = HttpResult.response st b ∧
        (st = 500 ∨ st = 429 ∨ failsBothParses b = true)) :
    fetchAPI w now r = (badEntry w now, some DictErr.fetchFailed) ∧
    (badEntry w now).valid = false ∧
    (badEntry w now).expiresAt = now + 10 * 60 ∧
    (∀ cache : CacheMap,
      runFetchStep cache now ⟨w, true, r⟩ =
        (mapSet cache w (badEntry w now), true, true)) ∧
    (∀ (cache : CacheMap) (q : String) (now₂ : Nat), toLowerStr q = w →
      (Query (mapSet cache w (badEntry w now)) q now₂).lines =
        some [unavailableLine w] ∧
      (Query (mapSet cache w (badEntry w now)) q now₂).err = none) := by
  have hf : fetchAPI w now r = (badEntry w now, some DictErr.fetchFailed) := by
    rcases hr with rfl | ⟨st, b, rfl, hcase⟩
    · rfl
    · rcases hcase with rfl | rfl | hb
      · simp [fetchAPI]
      · simp [fetchAPI]
      · by_cases hst : st = 500 ∨ st = 429
        · simp [fetchAPI, hst]
        · cases b with
          | none => simp [fetchAPI, hst]
          | some j =>
            simp only [failsBothParses, Bool.and_eq_true,
              Option.isNone_iff_eq_none] at hb
            simp [fetchAPI, hst, hb.1, hb.2]
  refine ⟨hf, rfl, rfl, fun cache => by simp [runFetchStep, hf], ?_⟩
  intro cache q now₂ hq
  subst hq
  have hm := mapGet_mapSet_self cache (toLowerStr q)
    (badEntry (toLowerStr q) now)
  have hqh := Query_hit _ q now₂ _ hm
  exact ⟨hqh.1, hqh.2⟩

theorem c3_failurePlaceholderCached_witness :
    fetchAPI "dog" 40 HttpResult.transportError =
      (badEntry "dog" 40, some DictErr.fetchFailed) ∧
    (Query (mapSet [] "dog" (badEntry "dog" 40)) "DOG" 99999).lines =
      some [unavailableLine "dog"] := by
  have h := c3_failurePlaceholderCached "dog" 40 HttpResult.transportError
    (Or.inl rfl)
  exact ⟨h.1, (h.2.2.2.2 [] "DOG" 99999 (by decide)).1⟩

/-- Claim C9, counterexample: the claim says any JSON object at all is
treated as the not-found shape, but an object whose `title` field is a
number fails the not-found unmarshal (Go reports a type mismatch), so
the fetch falls through to the found-shape parse, fails it too, and
returns the invalid failure placeholder instead. -/
theorem c9_titleNonStringCounterexample :
    fetchAPI "zzz" 100
        (HttpResult.response 200 (some (Json.obj [("title", Json.num 5)]))) =
      (badEntry "zzz" 100, some DictErr.fetchFailed) ∧
    (badEntry "zzz" 100).valid = false := by decide

/-- Claim C9, amended: any JSON object whose `title` field — matched
case-insensitively, required to be a string or null when present, and
not required to be present at all (the empty object qualifies) — is
treated as the not-found shape, yielding a valid, not-found entry that
expires one month after the fetch time. -/
theorem c9_objectIsNotFoundShape (w : String) (now st : Nat)
    (fs : List (String × Json))
    (hst : ¬(st = 500 ∨ st = 429))
    (hfs : ∀ p ∈ fs, toLowerStr p.1 = "title" →
      (∃ s, p.2 = Json.str s) ∨ p.2 = Json.null) :
    fetchAPI w now (HttpResult.response st (some (Json.obj fs))) =
      (⟨w, [], true, false, addDate now 0 1 0⟩, some DictErr.notFound) := by
  obtain ⟨t, ht⟩ := notFoundFromFields_ok fs ⟨""⟩ hfs
  exact fetchAPI_notFoundShape w now st _ t hst ht

theorem c9_objectIsNotFoundShape_witness :
    fetchAPI "zzz" 100 (HttpResult.response 200 (some (Json.obj []))) =
      (⟨"zzz", [], true, false, addDate 100 0 1 0⟩, some DictErr.notFound) :=
  c9_objectIsNotFoundShape "zzz" 100 200 [] (by decide)
    (fun p hp => absurd hp (List.not_mem_nil p))

/-- Claim C1, counterexample: a successful found response whose first
word-sense group repeats the part-of-speech string "noun" in two entries
produces two meanings with the same part-of-speech string — the code
deduplicates per part-of-speech entry, not per distinct string. -/
theorem c1_duplicatePosCounterexample :
    (fetchAPI "run" 0 (HttpResult.response 200 (some dupNounBody))).2 =
      none ∧
    (fetchAPI "run" 0 (HttpResult.response 200 (some dupNounBody))).1.meanings =
      [⟨"noun", "a sprint"⟩, ⟨"noun", "b"⟩] ∧
    ¬ ((fetchAPI "run" 0
        (HttpResult.response 200 (some dupNounBody))).1.meanings.map
          Meaning.partOfSpeech).Nodup := by decide

theorem filterMapPickEq (l : List meaningObj) :
    l.filterMap (fun p =>
      (match p.definitions with
      | [] => none
      | d0 :: _ =>
        some (⟨p.partOfSpeech, trimSpaces d0.definition⟩ : Meaning))) =
    (l.filter (fun p => !p.definitions.isEmpty)).map
      (fun p =>
        (⟨p.partOfSpeech, trimSpaces (p.definitions.headD ⟨""⟩).definition⟩ :
          Meaning)) := by
  induction l with
  | nil => rfl
  | cons p l ih =>
    cases hd : p.definitions with
    | nil => simp [List.filterMap_cons, List.filter_cons, hd, ih]
    | cons d ds => simp [List.filterMap_cons, List.filter_cons, hd, ih]

/-- Claim C1, amended: for every successful found response, the entry is
valid and found with a one-year expiry, and its meanings are built only
from the first word-sense group: every part-of-speech entry with zero
definitions is skipped, and each retained part-of-speech entry
contributes exactly one meaning holding its first definition trimmed of
surrounding spaces — one meaning per part-of-speech entry, so duplicated
part-of-speech strings each survive. -/
theorem c1_firstGroupFirstDefinition (w : String) (now st : Nat)
    (j : Json) (groups : List wordData)
    (hst : ¬(st = 500 ∨ st = 429))
    (hnf : decodeNotFound j = none)
    (hok : decodeApiData j = some groups) :
    (fetchAPI w now (HttpResult.response st (some j))).2 = none ∧
    (fetchAPI w now (HttpResult.response st (some j))).1.valid = true ∧
    (fetchAPI w now (HttpResult.response st (some j))).1.found = true ∧
    (fetchAPI w now (HttpResult.response st (some j))).1.expiresAt =
      addDate now 1 0 0 ∧
    (fetchAPI w now (HttpResult.response st (some j))).1.meanings =
      ((groups.headD ⟨"", []⟩).meanings.filter
        (fun p => !p.definitions.isEmpty)).map
        (fun p => ⟨p.partOfSpeech,
          trimSpaces (p.definitions.headD ⟨""⟩).definition⟩) := by
  cases groups with
  | nil => simp [fetchAPI, hst, hnf, hok]
  | cons g rest => simp [fetchAPI, hst, hnf, hok, filterMapPickEq]

theorem c1_firstGroupFirstDefinition_witness :
    (fetchAPI "run" 0 (HttpResult.response 200 (some firstGroupBody))).1.meanings =
      [⟨"noun", "a sprint"⟩] ∧
    (fetchAPI "run" 0 (HttpResult.response 200 (some firstGroupBody))).2 =
      none := by
  have h := c1_firstGroupFirstDefinition "run" 0 200 firstGroupBody
    [⟨"run", [⟨"noun", [⟨" a sprint "⟩, ⟨"x"⟩]⟩, ⟨"verb", []⟩]⟩,
     ⟨"run", [⟨"adjective", [⟨"ignored"⟩]⟩]⟩]
    (by decide) (by decide) (by decide)
  refine ⟨h.2.2.2.2.trans (by decide), h.1⟩

end DictCache
